import Mathlib

/-!
Verification of the two original utilities of `zavy.py`:
`get_value_at_index` (shape-agnostic indexed access into sequence/mapping
results, with a fallback through the literal key "result") and
`find_path` (upward ancestor-directory search).  Python containers,
indexing errors, POSIX `os.path.dirname` / `os.path.join`, and the
OS directory-listing interface are embedded explicitly below.
-/

set_option autoImplicit false

namespace Zavy

/-- Errors a Python subscript operation can raise in this model:
`KeyError` (mapping key absent), `IndexError` (sequence index out of
range), `TypeError` (subscript of an unsubscriptable value, or a
sequence subscripted with a string). -/
inductive PyErr where
  | keyError
  | indexError
  | typeError
deriving DecidableEq, Repr

/-- A Python dictionary key: an integer or a string. -/
inductive PyKey where
  | int : Int → PyKey
  | str : String → PyKey
deriving DecidableEq, Repr

/-- A Python value as `get_value_at_index` sees it: an opaque leaf
(model outputs, tensors, ...), an ordered sequence, or a keyed mapping
given by its association list. -/
inductive Val where
  | atom : Nat → Val
  | seq : List Val → Val
  | map : List (PyKey × Val) → Val

/-- First value bound to key `k` in an association list (Python dict
lookup). -/
def mapLookup (kvs : List (PyKey × Val)) (k : PyKey) : Option Val :=
  match kvs with
  | [] => none
  | (k', v) :: rest => if k' = k then some v else mapLookup rest k

/-- Python sequence subscript `s[i]`: a negative index counts from the
end; out-of-range raises `IndexError`. -/
def seqGet (s : List Val) (i : Int) : Except PyErr Val :=
  let j : Int := if i < 0 then i + s.length else i
  if 0 ≤ j ∧ j < (s.length : Int) then
    match s[j.toNat]? with
    | some v => Except.ok v
    | none => Except.error PyErr.indexError
  else Except.error PyErr.indexError

/-- Python subscript `obj[k]` for the container shapes of the model. -/
def getItem (obj : Val) (k : PyKey) : Except PyErr Val :=
  match obj, k with
  | Val.seq s, PyKey.int i => seqGet s i
  | Val.seq _, PyKey.str _ => Except.error PyErr.typeError
  | Val.map kvs, _ =>
    match mapLookup kvs k with
    | some v => Except.ok v
    | none => Except.error PyErr.keyError
  | Val.atom _, _ => Except.error PyErr.typeError

/-- `get_value_at_index(obj, index)` from `zavy.py`: return
`obj[index]`; if and only if that raises `KeyError`, return
`obj["result"][index]`, whose own failures propagate unhandled. -/
def get_value_at_index (obj : Val) (index : Int) : Except PyErr Val :=
  match getItem obj (PyKey.int index) with
  | Except.ok v => Except.ok v
  | Except.error PyErr.keyError =>
    match getItem obj (PyKey.str "result") with
    | Except.ok r => getItem r (PyKey.int index)
    | Except.error e => Except.error e
  | Except.error e => Except.error e

example : get_value_at_index (Val.seq [Val.atom 7, Val.atom 8]) 1 =
    Except.ok (Val.atom 8) := rfl

example : get_value_at_index (Val.seq [Val.atom 7, Val.atom 8]) 5 =
    Except.error PyErr.indexError := rfl

example : get_value_at_index (Val.seq [Val.atom 7, Val.atom 8]) (-1) =
    Except.ok (Val.atom 8) := rfl

example : get_value_at_index
    (Val.map [(PyKey.str "result", Val.seq [Val.atom 3])]) 0 =
    Except.ok (Val.atom 3) := rfl

example : get_value_at_index (Val.map [(PyKey.str "other", Val.atom 1)]) 0 =
    Except.error PyErr.keyError := rfl

/-! POSIX path operations used by `find_path`. -/

/-- Drop the trailing `/` characters of a character list
(`str.rstrip(sep)` in `posixpath.dirname`). -/
def stripTrailingSlashes (l : List Char) : List Char :=
  (l.reverse.dropWhile (fun c => c = '/')).reverse

/-- One past the position of the last `/` of a character list, `0` when
there is none (`p.rfind(sep) + 1` in `posixpath.dirname`). -/
def afterLastSlash : List Char → Nat
  | [] => 0
  | c :: rest =>
    let r := afterLastSlash rest
    if r > 0 then r + 1 else if c = '/' then 1 else 0

/-- `posixpath.dirname` on a character list: keep everything up to and
including the last `/`, then strip trailing slashes unless the head is
empty or consists only of slashes. -/
def dirnameL (p : List Char) : List Char :=
  if p.take (afterLastSlash p) ≠ [] ∧
      ¬ (p.take (afterLastSlash p)).all (fun c => c = '/') then
    stripTrailingSlashes (p.take (afterLastSlash p))
  else p.take (afterLastSlash p)

/-- `os.path.dirname` on strings (POSIX). -/
def dirname (p : String) : String := String.mk (dirnameL p.data)

/-- `os.path.join(a, b)` (POSIX, two arguments): `b` if it is absolute,
otherwise `a` and `b` glued with a separator unless `a` is empty or
already ends in one. -/
def joinPath (a b : String) : String :=
  if b.data.head? = some '/' then b
  else if a = "" ∨ a.data.getLast? = some '/' then a ++ b
  else a ++ "/" ++ b

example : dirname "/a/b" = "/a" := rfl
example : dirname "/a" = "/" := rfl
example : dirname "/" = "/" := rfl
example : dirname "a/b" = "a" := rfl
example : dirname "a" = "" := rfl
example : dirname "" = "" := rfl
example : joinPath "/a" "x" = "/a/x" := rfl
example : joinPath "/" "x" = "/x" := rfl

theorem dropWhile_length_le (p : Char → Bool) (l : List Char) :
    (l.dropWhile p).length ≤ l.length :=
  (List.dropWhile_suffix p).sublist.length_le

theorem stripTrailingSlashes_length_le (l : List Char) :
    (stripTrailingSlashes l).length ≤ l.length := by
  have h := dropWhile_length_le (fun c => c = '/') l.reverse
  simpa [stripTrailingSlashes] using h

theorem dropWhile_length_lt {p : Char → Bool} {l : List Char}
    (h : l.dropWhile p ≠ l) : (l.dropWhile p).length < l.length := by
  cases l with
  | nil => simp at h
  | cons c rest =>
    by_cases hc : p c
    · rw [List.dropWhile_cons_of_pos hc]
      exact Nat.lt_succ_of_le (dropWhile_length_le p rest)
    · rw [List.dropWhile_cons_of_neg hc] at h
      exact absurd rfl h

theorem stripTrailingSlashes_length_lt {l : List Char}
    (h : stripTrailingSlashes l ≠ l) :
    (stripTrailingSlashes l).length < l.length := by
  have hne : l.reverse.dropWhile (fun c => c = '/') ≠ l.reverse := by
    intro heq
    apply h
    unfold stripTrailingSlashes
    rw [heq, List.reverse_reverse]
  have := dropWhile_length_lt hne
  simpa [stripTrailingSlashes] using this

theorem take_length_lt {l : List Char} {i : Nat} (h : l.take i ≠ l) :
    (l.take i).length < l.length := by
  rcases Nat.lt_or_ge i l.length with hlt | hge
  · rw [List.length_take]
    omega
  · exact absurd (List.take_of_length_le hge) h

theorem dirnameL_length_lt {p : List Char} (h : dirnameL p ≠ p) :
    (dirnameL p).length < p.length := by
  unfold dirnameL at h ⊢
  by_cases hc : p.take (afterLastSlash p) ≠ [] ∧
      ¬ (p.take (afterLastSlash p)).all (fun c => c = '/')
  · rw [if_pos hc] at h ⊢
    by_cases hs : stripTrailingSlashes (p.take (afterLastSlash p)) =
        p.take (afterLastSlash p)
    · rw [hs] at h ⊢
      exact take_length_lt h
    · refine lt_of_lt_of_le (stripTrailingSlashes_length_lt hs) ?_
      rw [List.length_take]
      exact Nat.min_le_right _ _
  · rw [if_neg hc] at h ⊢
    exact take_length_lt h

theorem dirname_length_lt {p : String} (h : dirname p ≠ p) :
    (dirname p).length < p.length := by
  have hdata : dirnameL p.data ≠ p.data := by
    intro heq
    exact h (congrArg String.mk heq)
  exact dirnameL_length_lt hdata

/-! The filesystem and `find_path`. -/

/-- The OS directory-listing interface, modelled as a finite table from
directory paths to entry-name lists.  Listing a path absent from the
table — and in particular the empty path, which POSIX always rejects
with `ENOENT` — raises a filesystem error, as `os.listdir` does. -/
structure FS where
  dirs : List (String × List String)

/-- A filesystem error raised by a directory listing
(`FileNotFoundError` from `os.listdir`). -/
inductive FsErr where
  | fileNotFound
deriving DecidableEq, Repr

/-- Table lookup for `FS.listdir`. -/
def fsLookup (dirs : List (String × List String)) (p : String) :
    Option (List String) :=
  match dirs with
  | [] => none
  | (q, es) :: rest => if q = p then some es else fsLookup rest p

/-- `os.listdir(p)` against a modelled filesystem: the entries of `p`,
or a raised filesystem error when `p` is not a listable directory (the
empty path never is). -/
def FS.listdir (fs : FS) (p : String) : Except FsErr (List String) :=
  if p = "" then Except.error FsErr.fileNotFound
  else
    match fsLookup fs.dirs p with
    | some es => Except.ok es
    | none => Except.error FsErr.fileNotFound

/-- `find_path(name, path)` from `zavy.py`: if the listing of `path`
contains `name`, return the joined path; otherwise recurse on the
parent directory, returning the absent sentinel (`none`) once the
parent equals the current directory.  Errors raised by `os.listdir`
propagate.  (The Python default `path=None`, replaced by the current
working directory, is applied by the caller here.) -/
def find_path (fs : FS) (name : String) (path : String) :
    Except FsErr (Option String) :=
  match fs.listdir path with
  | Except.error e => Except.error e
  | Except.ok entries =>
    if name ∈ entries then Except.ok (some (joinPath path name))
    else if h : dirname path = path then Except.ok none
    else find_path fs name (dirname path)
termination_by path.length
decreasing_by exact dirname_length_lt h

/-- `n`-fold application of `dirname`. -/
def dirnameIter : Nat → String → String
  | 0, p => p
  | n + 1, p => dirnameIter n (dirname p)

/-- The chain of directories `find_path` visits starting at `p`, cut
off by a fuel argument: `p`, then the chain of `dirname p` unless
`dirname p = p`. -/
def ancestorChainF : Nat → String → List String
  | 0, p => [p]
  | n + 1, p => if dirname p = p then [p] else p :: ancestorChainF n (dirname p)

/-- The full ancestor chain of `p`: the fuel `p.length` always reaches
the `dirname` fixpoint because each proper `dirname` step shortens the
path. -/
def ancestors (p : String) : List String := ancestorChainF p.length p

example : ancestors "/a/b" = ["/a/b", "/a", "/"] := rfl
example : ancestors "a/b" = ["a/b", "a", ""] := rfl

/-- A small concrete filesystem used to exercise `find_path`: a root
holding `ComfyUI`, with an otherwise empty subtree `/a/b`. -/
def fsA : FS := FS.mk [("/a/b", ["f"]), ("/a", []), ("/", ["ComfyUI"])]

/-- A concrete filesystem whose only listable directory is the relative
single-component path `w`. -/
def fsB : FS := FS.mk [("w", ["f"])]

/-! Lemmas about `seqGet`. -/

theorem seqGet_nonneg {s : List Val} {i : Int} (hi : 0 ≤ i)
    (hn : i.toNat < s.length) :
    seqGet s i = Except.ok (s.get ⟨i.toNat, hn⟩) := by
  have h1 : ¬ i < 0 := by omega
  have h2 : 0 ≤ i ∧ i < (s.length : Int) := by omega
  simp only [seqGet, if_neg h1, if_pos h2, List.getElem?_eq_getElem hn,
    List.get_eq_getElem]

theorem seqGet_neg {s : List Val} {i : Int} (hneg : i < 0)
    (hmag : -(s.length : Int) ≤ i) (hn : (i + s.length).toNat < s.length) :
    seqGet s i = Except.ok (s.get ⟨(i + s.length).toNat, hn⟩) := by
  have h2 : 0 ≤ i + (s.length : Int) ∧ i + (s.length : Int) < s.length := by
    omega
  simp only [seqGet, if_pos hneg, if_pos h2, List.getElem?_eq_getElem hn,
    List.get_eq_getElem]

theorem seqGet_out_of_range {s : List Val} {i : Int} (hi : 0 ≤ i)
    (hn : (s.length : Int) ≤ i) :
    seqGet s i = Except.error PyErr.indexError := by
  have h1 : ¬ i < 0 := by omega
  have h2 : ¬ (0 ≤ i ∧ i < (s.length : Int)) := by omega
  simp only [seqGet, if_neg h1, if_neg h2]

/-- Claim C1: for every container and non-negative index, the fallback
lookup through the key "result" happens exactly when the direct lookup
raises a missing-key error, and a sequence's out-of-range error is
raised to the caller with no fallback attempted. -/
theorem get_value_fallback_only_on_key_error (obj : Val) (i : Int)
    (hi : 0 ≤ i) :
    (getItem obj (PyKey.int i) = Except.error PyErr.keyError →
      get_value_at_index obj i =
        match getItem obj (PyKey.str "result") with
        | Except.ok r => getItem r (PyKey.int i)
        | Except.error e => Except.error e) ∧
    (∀ e, e ≠ PyErr.keyError →
      getItem obj (PyKey.int i) = Except.error e →
      get_value_at_index obj i = Except.error e) ∧
    (∀ s : List Val, obj = Val.seq s →
      getItem obj (PyKey.int i) = Except.error PyErr.indexError →
      get_value_at_index obj i = Except.error PyErr.indexError) := by
  refine ⟨?_, ?_, ?_⟩
  · intro hk
    simp only [get_value_at_index, hk]
  · intro e he hidx
    cases e with
    | keyError => exact absurd rfl he
    | indexError => simp only [get_value_at_index, hidx]
    | typeError => simp only [get_value_at_index, hidx]
  · intro s _ hidx
    simp only [get_value_at_index, hidx]

/-- Witness for C1 at a concrete sequence and index. -/
theorem get_value_fallback_only_on_key_error_witness :
    (0 : Int) ≤ 5 ∧
    get_value_at_index (Val.seq [Val.atom 0]) 5 =
      Except.error PyErr.indexError :=
  ⟨by omega,
   (get_value_fallback_only_on_key_error (Val.seq [Val.atom 0]) 5
      (by omega)).2.2 [Val.atom 0] rfl rfl⟩

/-- Claim C2: for a mapping lacking key `i` whose literal key "result"
holds a sequence `r` with `i` valid for `r`, `get_value_at_index`
returns `r[i]`. -/
theorem get_value_fallback_returns_result_elem (kvs : List (PyKey × Val))
    (i : Int) (r : List Val)
    (hmiss : mapLookup kvs (PyKey.int i) = none)
    (hres : mapLookup kvs (PyKey.str "result") = some (Val.seq r))
    (hi : 0 ≤ i) (hn : i.toNat < r.length) :
    get_value_at_index (Val.map kvs) i = Except.ok (r.get ⟨i.toNat, hn⟩) := by
  simp only [get_value_at_index, getItem, hmiss, hres, seqGet_nonneg hi hn]

/-- Witness for C2 at a concrete wrapped mapping. -/
theorem get_value_fallback_returns_result_elem_witness :
    mapLookup [(PyKey.str "result", Val.seq [Val.atom 4, Val.atom 9])]
      (PyKey.int 1) = none ∧
    mapLookup [(PyKey.str "result", Val.seq [Val.atom 4, Val.atom 9])]
      (PyKey.str "result") = some (Val.seq [Val.atom 4, Val.atom 9]) ∧
    get_value_at_index
      (Val.map [(PyKey.str "result", Val.seq [Val.atom 4, Val.atom 9])]) 1 =
      Except.ok (Val.atom 9) :=
  ⟨rfl, rfl,
   get_value_fallback_returns_result_elem
     [(PyKey.str "result", Val.seq [Val.atom 4, Val.atom 9])] 1
     [Val.atom 4, Val.atom 9] rfl rfl (by omega) (by decide)⟩

/-- Claim C6: for a mapping lacking both the integer key `i` and the
fallback key "result", `get_value_at_index` raises a missing-key error
that propagates to the caller. -/
theorem get_value_missing_both_keys_raises (kvs : List (PyKey × Val))
    (i : Int)
    (h1 : mapLookup kvs (PyKey.int i) = none)
    (h2 : mapLookup kvs (PyKey.str "result") = none) :
    get_value_at_index (Val.map kvs) i = Except.error PyErr.keyError := by
  simp only [get_value_at_index, getItem, h1, h2]

/-- Witness for C6 at a concrete mapping with neither key. -/
theorem get_value_missing_both_keys_raises_witness :
    mapLookup [(PyKey.str "other", Val.atom 1)] (PyKey.int 0) = none ∧
    mapLookup [(PyKey.str "other", Val.atom 1)] (PyKey.str "result") = none ∧
    get_value_at_index (Val.map [(PyKey.str "other", Val.atom 1)]) 0 =
      Except.error PyErr.keyError :=
  ⟨rfl, rfl,
   get_value_missing_both_keys_raises [(PyKey.str "other", Val.atom 1)] 0
     rfl rfl⟩

/-- Claim C7: when the direct lookup succeeds, `get_value_at_index`
returns exactly the directly looked-up element, for valid sequence
indices and for mappings containing the key. -/
theorem get_value_direct_lookup (i : Int) (hi : 0 ≤ i) :
    (∀ (s : List Val) (hn : i.toNat < s.length),
      get_value_at_index (Val.seq s) i = Except.ok (s.get ⟨i.toNat, hn⟩)) ∧
    (∀ (kvs : List (PyKey × Val)) (v : Val),
      mapLookup kvs (PyKey.int i) = some v →
      get_value_at_index (Val.map kvs) i = Except.ok v) := by
  constructor
  · intro s hn
    simp only [get_value_at_index, getItem, seqGet_nonneg hi hn]
  · intro kvs v hv
    simp only [get_value_at_index, getItem, hv]

/-- Witness for C7 at a concrete sequence and a concrete mapping. -/
theorem get_value_direct_lookup_witness :
    get_value_at_index (Val.seq [Val.atom 3, Val.atom 5]) 1 =
      Except.ok (Val.atom 5) ∧
    get_value_at_index (Val.map [(PyKey.int 1, Val.atom 6)]) 1 =
      Except.ok (Val.atom 6) :=
  ⟨(get_value_direct_lookup 1 (by omega)).1 [Val.atom 3, Val.atom 5]
     (by decide),
   (get_value_direct_lookup 1 (by omega)).2 [(PyKey.int 1, Val.atom 6)]
     (Val.atom 6) rfl⟩

/-- Claim C10: for a sequence and a negative index of magnitude at most
the length, `get_value_at_index` returns the element counted from the
end, not an out-of-range error. -/
theorem get_value_negative_index (s : List Val) (i : Int) (hneg : i < 0)
    (hmag : -(s.length : Int) ≤ i)
    (hn : (i + s.length).toNat < s.length) :
    get_value_at_index (Val.seq s) i =
      Except.ok (s.get ⟨(i + s.length).toNat, hn⟩) := by
  simp only [get_value_at_index, getItem, seqGet_neg hneg hmag hn]

/-- Witness for C10 at a concrete sequence and index `-1`. -/
theorem get_value_negative_index_witness :
    (-1 : Int) < 0 ∧
    get_value_at_index (Val.seq [Val.atom 7, Val.atom 8]) (-1) =
      Except.ok (Val.atom 8) :=
  ⟨by omega,
   get_value_negative_index [Val.atom 7, Val.atom 8] (-1) (by omega)
     (by decide) (by decide)⟩

/-! Lemmas about `find_path` and the ancestor chain. -/

theorem find_path_eq (fs : FS) (name path : String) :
    find_path fs name path =
      match fs.listdir path with
      | Except.error e => Except.error e
      | Except.ok entries =>
        if name ∈ entries then Except.ok (some (joinPath path name))
        else if dirname path = path then Except.ok none
        else find_path fs name (dirname path) := by
  rw [find_path]
  simp only [dite_eq_ite]

theorem find_path_listdir_error {fs : FS} {name path : String} {e : FsErr}
    (hl : fs.listdir path = Except.error e) :
    find_path fs name path = Except.error e := by
  rw [find_path_eq, hl]

theorem find_path_found {fs : FS} {name path : String} {es : List String}
    (hl : fs.listdir path = Except.ok es) (hm : name ∈ es) :
    find_path fs name path = Except.ok (some (joinPath path name)) := by
  rw [find_path_eq, hl]
  simp [hm]

theorem find_path_root_none {fs : FS} {name path : String} {es : List String}
    (hl : fs.listdir path = Except.ok es) (hm : name ∉ es)
    (hroot : dirname path = path) :
    find_path fs name path = Except.ok none := by
  rw [find_path_eq, hl]
  simp [hm, hroot]

theorem find_path_step {fs : FS} {name path : String} {es : List String}
    (hl : fs.listdir path = Except.ok es) (hm : name ∉ es)
    (hne : dirname path ≠ path) :
    find_path fs name path = find_path fs name (dirname path) := by
  rw [find_path_eq, hl]
  simp [hm, hne]

theorem string_eq_empty_of_length_zero {p : String} (h : p.length = 0) :
    p = "" :=
  congrArg String.mk (List.length_eq_zero.mp h)

theorem dirname_ne_imp_length_pos {p : String} (h : dirname p ≠ p) :
    0 < p.length := by
  rcases Nat.eq_zero_or_pos p.length with h0 | h0
  · rw [string_eq_empty_of_length_zero h0] at h
    exact absurd rfl h
  · exact h0

theorem ancestorChainF_eq_of_le (f1 : Nat) :
    ∀ (f2 : Nat) (p : String), p.length ≤ f1 → p.length ≤ f2 →
      ancestorChainF f1 p = ancestorChainF f2 p := by
  induction f1 with
  | zero =>
    intro f2 p h1 _
    have hp : p = "" := string_eq_empty_of_length_zero (Nat.le_zero.mp h1)
    subst hp
    cases f2 with
    | zero => rfl
    | succ m =>
      simp only [ancestorChainF]
      rw [if_pos (show dirname "" = "" from rfl)]
  | succ n ih =>
    intro f2 p h1 h2
    cases f2 with
    | zero =>
      have hp : p = "" := string_eq_empty_of_length_zero (Nat.le_zero.mp h2)
      subst hp
      simp only [ancestorChainF]
      rw [if_pos (show dirname "" = "" from rfl)]
    | succ m =>
      by_cases hroot : dirname p = p
      · simp only [ancestorChainF, if_pos hroot]
      · simp only [ancestorChainF, if_neg hroot]
        have hlt := dirname_length_lt hroot
        rw [ih m (dirname p) (by omega) (by omega)]

theorem ancestors_root {p : String} (h : dirname p = p) :
    ancestors p = [p] := by
  unfold ancestors
  cases hL : p.length with
  | zero => rfl
  | succ n => simp only [ancestorChainF, if_pos h]

theorem ancestors_step {p : String} (h : dirname p ≠ p) :
    ancestors p = p :: ancestors (dirname p) := by
  have hlt := dirname_length_lt h
  have hpos := dirname_ne_imp_length_pos h
  obtain ⟨n, hn⟩ : ∃ n, p.length = n + 1 := ⟨p.length - 1, by omega⟩
  unfold ancestors
  rw [hn]
  simp only [ancestorChainF, if_neg h]
  rw [ancestorChainF_eq_of_le n (dirname p).length (dirname p) (by omega)
    (Nat.le_refl _)]

theorem self_mem_ancestors (p : String) : p ∈ ancestors p := by
  by_cases h : dirname p = p
  · rw [ancestors_root h]
    exact List.mem_singleton_self p
  · rw [ancestors_step h]
    exact List.mem_cons_self p _

theorem listdir_empty (fs : FS) :
    fs.listdir "" = Except.error FsErr.fileNotFound := by
  simp [FS.listdir]

/-- Claim C3: `find_path` returns the first match found searching
upward: an entry in the starting directory wins outright, and an entry
two levels up is returned when neither the starting directory nor its
parent contains one. -/
theorem find_path_first_match_upward (fs : FS) (name start : String) :
    (∀ es, fs.listdir start = Except.ok es → name ∈ es →
      find_path fs name start = Except.ok (some (joinPath start name))) ∧
    (∀ es0 es1 es2,
      fs.listdir start = Except.ok es0 → name ∉ es0 →
      dirname start ≠ start →
      fs.listdir (dirname start) = Except.ok es1 → name ∉ es1 →
      dirname (dirname start) ≠ dirname start →
      fs.listdir (dirname (dirname start)) = Except.ok es2 → name ∈ es2 →
      find_path fs name start =
        Except.ok (some (joinPath (dirname (dirname start)) name))) := by
  constructor
  · intro es hl hm
    exact find_path_found hl hm
  · intro es0 es1 es2 h0 hn0 hne0 h1 hn1 hne1 h2 hm2
    rw [find_path_step h0 hn0 hne0, find_path_step h1 hn1 hne1]
    exact find_path_found h2 hm2

/-- Witness for C3: a match in the starting directory, and a match two
levels up when nothing closer matches. -/
theorem find_path_first_match_upward_witness :
    find_path fsA "f" "/a/b" = Except.ok (some "/a/b/f") ∧
    find_path fsA "ComfyUI" "/a/b" = Except.ok (some "/ComfyUI") :=
  ⟨(find_path_first_match_upward fsA "f" "/a/b").1 ["f"] rfl (by decide),
   (find_path_first_match_upward fsA "ComfyUI" "/a/b").2 ["f"] [] ["ComfyUI"]
     rfl (by decide) (by decide) rfl (by decide) (by decide) rfl (by decide)⟩

/-- Claim C4: when every directory on the ancestor chain lists
successfully and none of them contains the target name, `find_path`
returns the absent sentinel `none` rather than an error. -/
theorem find_path_absent_returns_none (fs : FS) (name : String)
    (p : String)
    (h : ∀ q ∈ ancestors p, ∃ es, fs.listdir q = Except.ok es ∧ name ∉ es) :
    find_path fs name p = Except.ok none := by
  obtain ⟨es, hl, hn⟩ := h p (self_mem_ancestors p)
  by_cases hroot : dirname p = p
  · exact find_path_root_none hl hn hroot
  · rw [find_path_step hl hn hroot]
    exact find_path_absent_returns_none fs name (dirname p) (fun q hq =>
      h q (by rw [ancestors_step hroot]; exact List.mem_cons_of_mem _ hq))
termination_by p.length
decreasing_by exact dirname_length_lt hroot

/-- Witness for C4 on a concrete filesystem with the name absent
everywhere up to the root. -/
theorem find_path_absent_returns_none_witness :
    find_path fsA "nope" "/a/b" = Except.ok none :=
  find_path_absent_returns_none fsA "nope" "/a/b" (by
    intro q hq
    have h3 : ancestors "/a/b" = ["/a/b", "/a", "/"] := rfl
    rw [h3] at hq
    fin_cases hq
    · exact ⟨["f"], rfl, by decide⟩
    · exact ⟨[], rfl, by decide⟩
    · exact ⟨["ComfyUI"], rfl, by decide⟩)

theorem dirname_reaches_fixpoint (p : String) :
    ∃ n, n ≤ p.length ∧ dirname (dirnameIter n p) = dirnameIter n p := by
  by_cases h : dirname p = p
  · exact ⟨0, Nat.zero_le _, h⟩
  · obtain ⟨n, hle, hfix⟩ := dirname_reaches_fixpoint (dirname p)
    refine ⟨n + 1, ?_, ?_⟩
    · have := dirname_length_lt h
      omega
    · simpa only [dirnameIter] using hfix
termination_by p.length
decreasing_by exact dirname_length_lt h

/-- Claim C5: the upward search terminates with no fixed depth limit:
iterating `dirname` reaches a fixpoint within `path.length` steps, and
`find_path` recurses on the parent exactly while the parent differs
from the current directory, stopping with the sentinel once they
coincide. -/
theorem find_path_termination_at_root (fs : FS) (name path : String) :
    (∃ n, n ≤ path.length ∧
      dirname (dirnameIter n path) = dirnameIter n path) ∧
    (∀ es, fs.listdir path = Except.ok es → name ∉ es →
      (dirname path = path → find_path fs name path = Except.ok none) ∧
      (dirname path ≠ path →
        find_path fs name path = find_path fs name (dirname path))) := by
  constructor
  · exact dirname_reaches_fixpoint path
  · intro es hl hn
    exact ⟨fun hroot => find_path_root_none hl hn hroot,
           fun hne => find_path_step hl hn hne⟩

/-- Witness for C5: one recursive step on a concrete non-root
directory. -/
theorem find_path_termination_at_root_witness :
    find_path fsA "nope" "/a" = find_path fsA "nope" (dirname "/a") :=
  (((find_path_termination_at_root fsA "nope" "/a").2 [] rfl
    (by decide)).2) (by decide)

/-- Claim C8: `find_path` is deterministic in its arguments and the
modelled filesystem: two calls with identical arguments yield identical
results, there being no hidden mutable state in the model. -/
theorem find_path_deterministic (fs : FS) (name path : String)
    (r1 r2 : Except FsErr (Option String))
    (h1 : find_path fs name path = r1) (h2 : find_path fs name path = r2) :
    r1 = r2 :=
  h1.symm.trans h2

/-- Witness for C8 at concrete arguments. -/
theorem find_path_deterministic_witness :
    find_path fsA "nope" "/a/b" = find_path fsA "nope" "/a/b" :=
  find_path_deterministic fsA "nope" "/a/b" _ _ rfl rfl

theorem afterLastSlash_eq_zero {l : List Char} (h : '/' ∉ l) :
    afterLastSlash l = 0 := by
  induction l with
  | nil => rfl
  | cons c rest ih =>
    simp only [List.mem_cons, not_or] at h
    obtain ⟨hc, hrest⟩ := h
    simp only [afterLastSlash, ih hrest]
    rw [if_neg (by omega), if_neg (fun he => hc he.symm)]

theorem dirname_no_slash {p : String} (h : '/' ∉ p.data) : dirname p = "" := by
  unfold dirname dirnameL
  rw [afterLastSlash_eq_zero h]
  simp

/-- Claim C9: for a relative single-component starting path (nonempty,
no separator) whose listing lacks the target, the parent is the empty
string and listing it raises a filesystem error, so `find_path` raises
instead of returning the absent sentinel. -/
theorem find_path_relative_single_component_raises (fs : FS)
    (name path : String) (hne : path ≠ "") (hns : '/' ∉ path.data)
    (es : List String) (hl : fs.listdir path = Except.ok es)
    (hnm : name ∉ es) :
    dirname path = "" ∧
    find_path fs name path = Except.error FsErr.fileNotFound := by
  have hd : dirname path = "" := dirname_no_slash hns
  refine ⟨hd, ?_⟩
  have hstep : dirname path ≠ path := by
    rw [hd]
    exact fun he => hne he.symm
  rw [find_path_step hl hnm hstep, hd]
  exact find_path_listdir_error (listdir_empty fs)

/-- Witness for C9 at the concrete relative path `w`. -/
theorem find_path_relative_single_component_raises_witness :
    dirname "w" = "" ∧
    find_path fsB "nope" "w" = Except.error FsErr.fileNotFound :=
  find_path_relative_single_component_raises fsB "nope" "w" (by decide)
    (by decide) ["f"] rfl (by decide)

end Zavy
